import Mathlib

/-!
Verification of the reconciliation core of `reconcile_app.py` (Hotel
Reconcile Pro v1.15 Web).  The Python source is shallowly embedded:
strings are lists of characters, spreadsheet cells are an explicit value
type, the external `dateutil` parser is a parameter, and every function
is translated clause by clause from the source.
-/

namespace Reconcile

/-! ### Character and string primitives (models of Python `str` methods) -/

/-- Model of Python whitespace for `str.strip` and the regex class for
whitespace: space, tab, newline, carriage return, vertical tab, form feed
(the ASCII fragment of Python whitespace). -/
def pyIsSpace (c : Char) : Bool :=
  c = ' ' || c = '\t' || c = '\n' || c = '\r' || c = '\x0b' || c = '\x0c'

/-- Model of Python `str.strip()`: drop whitespace from both ends. -/
def pyStrip (cs : List Char) : List Char :=
  ((cs.dropWhile pyIsSpace).reverse.dropWhile pyIsSpace).reverse

/-- ASCII upper-casing of one character, the body of `Char.toUpper`,
modelling Python `str.upper` on the ASCII range. -/
def upChar (c : Char) : Char :=
  if 97 ≤ c.toNat ∧ c.toNat ≤ 122 then Char.ofNat (c.toNat - 32) else c

/-- ASCII lower-casing of one character, modelling Python `str.lower`
on the ASCII range. -/
def lowChar (c : Char) : Char :=
  if 65 ≤ c.toNat ∧ c.toNat ≤ 90 then Char.ofNat (c.toNat + 32) else c

/-- Lower-case a whole string (Python `str.lower`). -/
def lowerL (cs : List Char) : List Char := cs.map lowChar

def lowerStr (s : String) : String := ⟨lowerL s.data⟩

/-- Does `pat` stand at the head of `cs`? (exact characters). -/
def leadsWith : List Char → List Char → Bool
  | [], _ => true
  | _ :: _, [] => false
  | p :: ps, c :: cs => p = c && leadsWith ps cs

/-- Model of Python `needle in hay` (substring containment). -/
def hasSubL (hay needle : List Char) : Bool :=
  match hay with
  | [] => leadsWith needle []
  | _ :: t => leadsWith needle hay || hasSubL t needle

def hasSub (hay needle : String) : Bool := hasSubL hay.data needle.data

/-- Model of Python `str.endswith` for a suffix. -/
def trailsWith (s suffix : List Char) : Bool :=
  leadsWith suffix.reverse s.reverse

/-! ### `norm_key` (source lines 24 to 28)

Python:  `s = "" if v is None else str(v)`; `s = s.strip().upper()`;
`s = re.sub(r"[ \-]+", "", s)`.  Replacing every run of spaces and
hyphens by the empty string is the same as deleting every space and
hyphen. -/

def normKeyL (cs : List Char) : List Char :=
  ((pyStrip cs).map upChar).filter (fun c => !(c = ' ' || c = '-'))

def normKey (s : String) : String := ⟨normKeyL s.data⟩

/-! ### Dates -/

/-- A `datetime` value as far as the reconciliation logic inspects one. -/
structure PyDate where
  year : Nat
  month : Nat
  day : Nat
deriving DecidableEq

/-- Python `datetime` comparison (lexicographic). -/
def pyDateLt (a b : PyDate) : Bool :=
  a.year < b.year ||
    (a.year = b.year && (a.month < b.month || (a.month = b.month && a.day < b.day)))

/-- The `MONTH_ABBR` table (source line 19) as a function, with the
dictionary default used by `monyy`. -/
def monthAbbr : Nat → String
  | 1 => "Jan" | 2 => "Feb" | 3 => "Mar" | 4 => "Apr" | 5 => "May" | 6 => "Jun"
  | 7 => "Jul" | 8 => "Aug" | 9 => "Sep" | 10 => "Oct" | 11 => "Nov" | 12 => "Dec"
  | _ => "Mon"

/-- Python `str(y)[-2:]`: the last two characters (the whole string when
shorter). -/
def last2 (s : String) : String := ⟨s.data.drop (s.data.length - 2)⟩

/-- Source function `monyy` (lines 66 to 67). -/
def monyy (y m : Nat) : String := monthAbbr m ++ "'" ++ last2 (toString y)

def pad2 (n : Nat) : String := if n < 10 then "0" ++ toString n else toString n

/-- The `fmt` closure inside `choose_period`: `dt.strftime("%b'%y")`. -/
def fmtMonYY (d : PyDate) : String := monthAbbr d.month ++ "'" ++ pad2 (d.year % 100)

/-! ### Regex machinery for `extract_period_from_name` (source lines 69 to 80)

Each of the four `re.search` calls is embedded as a leftmost search that
tries an anchored matcher at every position, with the backtracking
preferences of the Python `re` engine spelled out (alternatives in
written order, greedy counted repetitions from the largest count down). -/

def isWordChar (c : Char) : Bool := c.isAlphanum || c = '_'

/-- Word boundary on the left of a match whose first character is a word
character: the previous character (if any) is not a word character. -/
def noWordBefore : Option Char → Bool
  | none => true
  | some p => !(isWordChar p)

/-- Word boundary on the right of a match whose last character is a word
character: the next character (if any) is not a word character. -/
def bAfter : List Char → Bool
  | [] => true
  | c :: _ => !(isWordChar c)

def digitVal (c : Char) : Nat := c.toNat - 48

/-- Match a literal at the head of the input, returning the rest. -/
def dropLit (pat s : List Char) : Option (List Char) :=
  if leadsWith pat s then some (s.drop pat.length) else none

/-- Leftmost regex search: try the anchored matcher at every position,
carrying the previous character for word-boundary tests. -/
def searchAt (f : Option Char → List Char → Option α) :
    Option Char → List Char → Option α
  | prev, [] => f prev []
  | prev, c :: cs => (f prev (c :: cs)).orElse fun _ => searchAt f (some c) cs

/-- The three-letter month alternation of the first pattern, in the order
written in the source regex, with the `MONTH_MAP` value of each. -/
def mon3 : List (String × Nat) :=
  [("jan",1),("feb",2),("mar",3),("apr",4),("may",5),("jun",6),
   ("jul",7),("aug",8),("sep",9),("oct",10),("nov",11),("dec",12)]

/-- The month alternation of the second pattern flattened into the
backtracking order of the Python engine: each branch tries its optional
long suffix first (and inside `sep(?:t|tember)?` the alternative `t`
before `tember`), branches in written order.  The source regex stops at
November: it has no December branch. -/
def monFull : List (String × Nat) :=
  [("january",1),("jan",1),("february",2),("feb",2),("march",3),("mar",3),
   ("april",4),("apr",4),("may",5),("june",6),("jun",6),("july",7),("jul",7),
   ("august",8),("aug",8),("sept",9),("september",9),("sep",9),
   ("october",10),("oct",10),("november",11),("nov",11)]

/-- Drop exactly `n` non-digit characters, if the input starts with them. -/
def dropNonDigitsN : Nat → List Char → Option (List Char)
  | 0, s => some s
  | _+1, [] => none
  | n+1, c :: cs => if c.isDigit then none else dropNonDigitsN n cs

/-- Greedy bounded repetition with backtracking: try the counts in the
given order (largest first for a greedy `\D{0,3}`), first full success
of the continuation wins. -/
def tryKs (ks : List Nat) (s : List Char) (cont : List Char → Option α) : Option α :=
  match ks with
  | [] => none
  | k :: kt =>
    match dropNonDigitsN k s with
    | some rest => (cont rest).orElse fun _ => tryKs kt s cont
    | none => tryKs kt s cont

/-- Match `20\d{2}` and return the year value. -/
def year20 (s : List Char) : Option (Nat × List Char) :=
  match s with
  | '2' :: '0' :: d3 :: d4 :: rest =>
    if d3.isDigit ∧ d4.isDigit then
      some (2000 + 10 * digitVal d3 + digitVal d4, rest)
    else none
  | _ => none

/-- Match `(0[1-9]|1[0-2])` and return the month value. -/
def month2 (s : List Char) : Option (Nat × List Char) :=
  match s with
  | '0' :: d :: rest =>
    if d.isDigit ∧ 1 ≤ digitVal d then some (digitVal d, rest) else none
  | '1' :: d :: rest =>
    if d = '0' ∨ d = '1' ∨ d = '2' then some (10 + digitVal d, rest) else none
  | _ => none

/-- The separator class of the third and fourth patterns:
space, underscore, dot, slash, hyphen. -/
def sepChar (c : Char) : Bool := c = ' ' || c = '_' || c = '.' || c = '/' || c = '-'

/-- Anchored matcher for the first pattern:
backslash-b, three-letter month, whitespace run, apostrophe, two digits,
backslash-b. -/
def p1At (prev : Option Char) (s : List Char) : Option String :=
  if noWordBefore prev then
    mon3.findSome? fun am =>
      match dropLit am.1.data s with
      | none => none
      | some rest =>
        match rest.dropWhile pyIsSpace with
        | q :: d1 :: d2 :: rest3 =>
          if q = '\'' ∧ d1.isDigit ∧ d2.isDigit ∧ bAfter rest3 then
            some (monyy (2000 + 10 * digitVal d1 + digitVal d2) am.2)
          else none
        | _ => none
  else none

/-- Anchored matcher for the second pattern: month name (long or short),
up to three non-digits, a year `20\d{2}`, right boundary. -/
def p2At (prev : Option Char) (s : List Char) : Option String :=
  if noWordBefore prev then
    monFull.findSome? fun am =>
      match dropLit am.1.data s with
      | none => none
      | some rest =>
        tryKs [3, 2, 1, 0] rest fun rest2 =>
          match year20 rest2 with
          | some (y, rest3) => if bAfter rest3 then some (monyy y am.2) else none
          | none => none
  else none

/-- Anchored matcher for the third pattern: `20\d{2}`, separator, month. -/
def p3At (prev : Option Char) (s : List Char) : Option String :=
  if noWordBefore prev then
    match year20 s with
    | some (y, r1) =>
      match r1 with
      | c :: r2 =>
        if sepChar c then
          match month2 r2 with
          | some (m, r3) => if bAfter r3 then some (monyy y m) else none
          | none => none
        else none
      | [] => none
    | none => none
  else none

/-- Anchored matcher for the fourth pattern: month, separator, `20\d{2}`. -/
def p4At (prev : Option Char) (s : List Char) : Option String :=
  if noWordBefore prev then
    match month2 s with
    | some (m, r1) =>
      match r1 with
      | c :: r2 =>
        if sepChar c then
          match year20 r2 with
          | some (y, r3) => if bAfter r3 then some (monyy y m) else none
          | none => none
        else none
      | [] => none
    | none => none
  else none

/-- Source function `extract_period_from_name` (lines 69 to 80): lower-case the
name, then try the four patterns in order, first match wins. -/
def extractPeriodFromName (name : String) : Option String :=
  if name = "" then none
  else
    let n := lowerL name.data
    (searchAt p1At none n).orElse fun _ =>
    (searchAt p2At none n).orElse fun _ =>
    (searchAt p3At none n).orElse fun _ =>
    searchAt p4At none n

/-- Source function `choose_period` (lines 82 to 87). -/
def choosePeriod (hotName comName : String)
    (hotEarliest comEarliest : Option PyDate) : String :=
  match (extractPeriodFromName comName).orElse
      (fun _ => extractPeriodFromName hotName) with
  | some p => p
  | none =>
    ((comEarliest.map fmtMonYY).orElse (fun _ => hotEarliest.map fmtMonYY)).getD
      "Period"

/-! ### OTA brand inference (source lines 50 to 64) -/

/-- Source function `infer_ota` (lines 50 to 57). -/
def inferOta (text : String) : String :=
  let t := lowerStr text
  if hasSub t "booking" then "Booking.com"
  else if hasSub t "expedia" || hasSub t "hotels.com" then "Expedia"
  else if hasSub t "agoda" then "Agoda"
  else if hasSub t "traveloka" then "Traveloka"
  else if hasSub t "trip.com" || hasSub t "ctrip" then "Trip.com"
  else "OTA"

/-- A character of the class `[a-z0-9]`. -/
def isLowAl (c : Char) : Bool := (97 ≤ c.toNat && c.toNat ≤ 122) || c.isDigit

/-- Source function `canon_ota` (lines 59 to 64). -/
def canonOta (name : String) : String :=
  let n := (lowerL name.data).filter isLowAl
  if hasSubL n "bookingcom".data || hasSubL n "booking".data then "Booking.com"
  else if hasSubL n "expedia".data || hasSubL n "hotelscom".data
      || hasSubL n "hotels".data then "Expedia"
  else ⟨n⟩

/-! ### Spreadsheet model

A worksheet is a grid of cell values; `cell` is 1-indexed like openpyxl
and reads `None` (here `vnone`) outside the stored grid.  Python `str()`
of a non-string cell is modelled by `pystr`; the reconciliation logic
feeds such text only through `norm_key`, `float()` and substring tests. -/

inductive CVal where
  | vnone
  | vstr (s : String)
  | vnum (q : ℚ)
  | vdate (d : PyDate)
deriving DecidableEq

structure Sheet where
  grid : List (List CVal)

def Sheet.maxRow (ws : Sheet) : Nat := ws.grid.length

def Sheet.maxCol (ws : Sheet) : Nat :=
  ws.grid.foldr (fun r m => max r.length m) 1

def Sheet.cell (ws : Sheet) (r c : Nat) : CVal :=
  (ws.grid.getD (r - 1) []).getD (c - 1) .vnone

/-- Python truthiness of a cell value (`v or ...` and `if val:`). -/
def cvFalsy : CVal → Bool
  | .vnone => true
  | .vstr s => s = ""
  | .vnum q => q = 0
  | .vdate _ => false

/-- Model of Python `str()` on a cell value.  String cells are returned
as they are; the renderings of the other variants are a modelling choice
(the source only ever normalizes, float-converts or substring-tests
them). -/
def pystr : CVal → String
  | .vnone => "None"
  | .vstr s => s
  | .vnum q => if q.den = 1 then toString q.num else toString q.num ++ "/" ++ toString q.den
  | .vdate d => toString d.year ++ "-" ++ pad2 d.month ++ "-" ++ pad2 d.day

/-- Normalization `norm_key` applied to a raw cell value: the `None` guard of the
source, then `str(v)`. -/
def normKeyV (v : CVal) : String :=
  match v with
  | .vnone => normKey ""
  | v => normKey (pystr v)

/-- Header text as `find_header_col` reads it (source line 97):
empty for `None`, otherwise `str(v).strip().lower()`. -/
def headerCellText (v : CVal) : String :=
  match v with
  | .vnone => ""
  | v => ⟨lowerL (pyStrip (pystr v).data)⟩

/-- Header text as the keyword scans read it
(`str(cell.value or "").lower()`, source lines 168, 187, 361). -/
def orEmptyLower (v : CVal) : String :=
  if cvFalsy v then "" else lowerStr (pystr v)

/-- The inclusive 1-indexed range `[a, b]` as a list. -/
def rng (a b : Nat) : List Nat := List.range' a (b + 1 - a)

/-- Source function `find_header_col` (lines 93 to 99): first column whose
stripped lower-cased header text equals one of the names. -/
def findHeaderCol (ws : Sheet) (names : List String) (hdrRow : Nat) : Option Nat :=
  let lnames := names.map lowerStr
  (rng 1 ws.maxCol).find? fun c => lnames.contains (headerCellText (ws.cell hdrRow c))

/-- One row of the source line 121 test:
`any(cell value not in (None, "") ...)`. -/
def rowNonempty (ws : Sheet) (r : Nat) : Bool :=
  (rng 1 ws.maxCol).any fun c =>
    decide (ws.cell r c ≠ .vnone ∧ ws.cell r c ≠ .vstr "")

/-- The `while` scan of source lines 119 to 123, starting at row `n`:
walk upward while the row is empty and the index exceeds 1. -/
def lastNonemptyFrom (ws : Sheet) : Nat → Nat
  | 0 => 0
  | 1 => 1
  | n + 2 => if rowNonempty ws (n + 2) then n + 2 else lastNonemptyFrom ws (n + 1)

def lastNonempty (ws : Sheet) : Nat := lastNonemptyFrom ws ws.maxRow

/-- Fixed header row of the Hoteliers sheet (source line 110). -/
def hotHeaderRow : Nat := 2

/-- Fixed first data row of the Hoteliers sheet (source line 124). -/
def hotDataStart : Nat := 3

/-- The bound `data_end = max(2, last_nonempty - 1)` of source line 125. -/
def hotDataEnd (ws : Sheet) : Nat := max 2 (lastNonempty ws - 1)

/-! ### `collect_hoteliers` (source lines 109 to 156)

The external fuzzy date parser `dateutil.parser.parse` is a parameter
`duP`; the source catches every exception of it, which the `Option`
result models. -/

/-- Date from one cell as the source reads it: a `datetime` value is
used as is, `None` and the empty string give no date, other values go
through the fuzzy parser on their `str()`. -/
def cellDate (duP : String → Option PyDate) (v : CVal) : Option PyDate :=
  match v with
  | .vdate d => some d
  | .vnone => none
  | .vstr s => if s = "" then none else duP s
  | .vnum q => duP (pystr (.vnum q))

/-- The departure-then-arrival date resolution of source lines 131 to 141. -/
def rowDate (duP : String → Option PyDate) (ws : Sheet)
    (arrCol depCol : Option Nat) (r : Nat) : Option PyDate :=
  let dep := match depCol with
    | some c => cellDate duP (ws.cell r c)
    | none => none
  match dep with
  | some d => some d
  | none =>
    match arrCol with
    | some c => cellDate duP (ws.cell r c)
    | none => none

structure HotInfo where
  resCol : Nat
  rowsByPeriod : String → List Nat
  keysByPeriod : String → Finset String
  earliestDep : Option PyDate
  arrCol : Option Nat
  depCol : Option Nat
  otaCol : Option Nat

/-- Pointwise update used for the `setdefault(...).add/append` maps. -/
def updSet (f : String → Finset String) (p : String) (k : String) :
    String → Finset String :=
  fun q => if q = p then insert k (f q) else f q

def updList (f : String → List Nat) (p : String) (r : Nat) :
    String → List Nat :=
  fun q => if q = p then f q ++ [r] else f q

/-- The body of the row loop of `collect_hoteliers` (source lines 130
to 152), folded over the data rows. -/
def hotStep (duP : String → Option PyDate) (ws : Sheet)
    (arrCol depCol : Option Nat) (resCol : Nat)
    (acc : (String → List Nat) × (String → Finset String) × Option PyDate)
    (r : Nat) :
    (String → List Nat) × (String → Finset String) × Option PyDate :=
  let dt := rowDate duP ws arrCol depCol r
  let period := match dt with
    | some d => monyy d.year d.month
    | none => "Unknown"
  let ear := match dt, acc.2.2 with
    | some d, some e => if pyDateLt d e then some d else some e
    | some d, none => some d
    | none, e => e
  let k := normKeyV (ws.cell r resCol)
  if k ≠ "" then
    (updList acc.1 period r, updSet acc.2.1 period k, ear)
  else
    (acc.1, acc.2.1, ear)

def collectHoteliers (duP : String → Option PyDate) (ws : Sheet) : HotInfo :=
  let resCol := (findHeaderCol ws
    ["Reservation number", "Reservation id", "Confirmation number"] hotHeaderRow).getD 2
  let arrCol := findHeaderCol ws ["Arrival", "Check-in", "Check in"] hotHeaderRow
  let depCol := findHeaderCol ws ["Departure", "Check-out", "Check out"] hotHeaderRow
  let otaCol := findHeaderCol ws
    ["Channel", "OTA", "Booking Channel", "Source", "Distributor", "Partner",
     "Agency", "Agent", "Merchant", "Reservation Source", "Booking Site",
     "Website", "Booking Source"] hotHeaderRow
  let folded := (rng hotDataStart (hotDataEnd ws)).foldl
    (hotStep duP ws arrCol depCol resCol) (fun _ => [], fun _ => ∅, none)
  ⟨resCol, folded.1, folded.2.1, folded.2.2, arrCol, depCol, otaCol⟩

/-! ### Commission (OTA) sheet extraction (source lines 160 to 203) -/

structure ComSettings where
  headerRow : Nat
  reservationColIdx : Nat
  dataStartRow : Nat
deriving DecidableEq

/-- Keyword test of `detect_commission_settings` (source lines 162, 169). -/
def comKeywordHit (v : CVal) : Bool :=
  hasSub (orEmptyLower v) "reservation" || hasSub (orEmptyLower v) "booking id"

/-- Inner column loop of `detect_commission_settings`: the first column
of row `r` whose text holds a keyword. -/
def comRowHit (ws : Sheet) (r : Nat) : Option Nat :=
  (rng 1 ws.maxCol).find? fun c => comKeywordHit (ws.cell r c)

/-- The row loop of `detect_commission_settings` (source lines 166 to
173): rows are scanned in order; a hit records `(r, c)` and the loop
stops after the first hit row with `r` other than 1 (a hit in row 1
leaves the loop running, later hits overwrite it). -/
def comScan (ws : Sheet) : List Nat → Nat × Nat → Nat × Nat
  | [], best => best
  | r :: rest, best =>
    let best' := match comRowHit ws r with
      | some c => (r, c)
      | none => best
    if best'.1 ≠ 1 then best' else comScan ws rest best'

def detectCommissionSettings (ws : Sheet) : ComSettings :=
  let best := comScan ws (rng 1 (min 10 ws.maxRow)) (1, 2)
  ⟨best.1, best.2, best.1 + 1⟩

/-- Date from a cell as `collect_commission_excel` reads it (source
lines 196 to 200): `datetime` as is, otherwise parse `str(val)` when
`val` is truthy. -/
def cellDateTruthy (duP : String → Option PyDate) (v : CVal) : Option PyDate :=
  match v with
  | .vdate d => some d
  | v => if cvFalsy v then none else duP (pystr v)

/-- The date column detected at source lines 185 to 190. -/
def comDateCol (ws : Sheet) (stg : ComSettings) : Option Nat :=
  (rng 1 ws.maxCol).find? fun c =>
    let v := orEmptyLower (ws.cell stg.headerRow c)
    hasSub v "arrival" || hasSub v "check-in" || hasSub v "departure"

/-- The body of the row loop of `collect_commission_excel` (source
lines 192 to 201). -/
def comStep (duP : String → Option PyDate) (ws : Sheet) (stg : ComSettings)
    (dateCol : Option Nat) (acc : Finset String × Option PyDate) (r : Nat) :
    Finset String × Option PyDate :=
  let k := normKeyV (ws.cell r stg.reservationColIdx)
  let keys := if k ≠ "" then insert k acc.1 else acc.1
  let ear := match dateCol with
    | none => acc.2
    | some dc =>
      match cellDateTruthy duP (ws.cell r dc), acc.2 with
      | some d, some e => if pyDateLt d e then some d else some e
      | some d, none => some d
      | none, e => e
  (keys, ear)

def collectCommissionExcel (duP : String → Option PyDate) (ws : Sheet)
    (stg : ComSettings) : Finset String × Option PyDate :=
  (rng stg.dataStartRow ws.maxRow).foldl
    (comStep duP ws stg (comDateCol ws stg)) (∅, none)

/-! ### Channel filter over the Hoteliers rows (source lines 308 to 344) -/

/-- The per-row channel test of source lines 314 to 324: a free target
or the generic sentinel matches everything; otherwise the canonical
target must equal the canonical cell text or be contained in it. -/
def otaRowMatch (target : String) (v : CVal) : Bool :=
  if target = "" || target = "OTA" then true
  else
    let cellCanon := canonOta (pystr v)
    let targetCanon := canonOta target
    targetCanon = cellCanon || hasSub cellCanon targetCanon

/-- Source lines 313 to 333: filter the period rows by channel when an
OTA column exists, falling back to the whole period row set when the
filter empties a non-empty set. -/
def includedRows (ws : Sheet) (otaCol : Option Nat) (target : String)
    (rowsPeriod : List Nat) : List Nat :=
  match otaCol with
  | none => rowsPeriod
  | some oc =>
    let inc := rowsPeriod.filter fun r => otaRowMatch target (ws.cell r oc)
    if inc.isEmpty && !rowsPeriod.isEmpty then rowsPeriod else inc

/-- One row of the key recording while copying the included rows
(source lines 336 to 344), with the `if k:` guard. -/
def hotOutStep (ws : Sheet) (resCol : Nat) (acc : Finset String) (r : Nat) :
    Finset String :=
  let k := normKeyV (ws.cell r resCol)
  if k ≠ "" then insert k acc else acc

def hotOutKeys (ws : Sheet) (resCol : Nat) (rows : List Nat) : Finset String :=
  rows.foldl (hotOutStep ws resCol) ∅

/-! ### Booking.com zero-amount suppression (source lines 354 to 397) -/

def digitsToNat (l : List Char) : Nat := l.foldl (fun a c => 10 * a + digitVal c) 0

/-- Model of Python `float(str)` on the decimal forms that occur in
amount cells: optional sign, digits with at most one dot (exponents and
exotic forms are out of the model; a parse failure is `none`, which the
caller's bare `except` turns into 0). -/
def pyFloatParse (s : String) : Option ℚ :=
  let t0 := pyStrip s.data
  let sgn : ℚ × List Char := match t0 with
    | '-' :: r => (-1, r)
    | '+' :: r => (1, r)
    | r => (1, r)
  let t := sgn.2
  let ip := t.takeWhile Char.isDigit
  let r1 := t.dropWhile Char.isDigit
  match r1 with
  | [] => if ip.isEmpty then none else some (sgn.1 * digitsToNat ip)
  | '.' :: fr =>
    let fp := fr.takeWhile Char.isDigit
    let r2 := fr.dropWhile Char.isDigit
    if r2.isEmpty && !(ip.isEmpty && fp.isEmpty) then
      some (sgn.1 * ((digitsToNat ip : ℚ) + (digitsToNat fp : ℚ) / (10 ^ fp.length : ℚ)))
    else none
  | _ => none

/-- Conversion `float(v or 0)` under a bare `try/except` that leaves 0 on failure
(source lines 378 to 383): falsy values give 0, numbers convert, strings
parse or give 0, anything else (a `datetime`) raises and gives 0. -/
def pyFloat (v : CVal) : ℚ :=
  if cvFalsy v then 0
  else
    match v with
    | .vnum q => q
    | .vstr s => (pyFloatParse s).getD 0
    | _ => 0

/-- The column scans of source lines 360 to 363: the last column whose
`str(value or "").lower()` holds both keywords (no `break`, so a later
hit overwrites an earlier one). -/
def lastColWith (ws : Sheet) (hdrRow : Nat) (a b : String) : Option Nat :=
  (rng 1 ws.maxCol).foldl
    (fun acc c =>
      let v := orEmptyLower (ws.cell hdrRow c)
      if hasSub v a && hasSub v b then some c else acc)
    none

/-- The row lookup of source lines 370 to 375: first data row whose
normalized key equals `k`. -/
def findKeyRow (ws : Sheet) (stg : ComSettings) (k : String) : Option Nat :=
  (rng stg.dataStartRow ws.maxRow).find? fun r =>
    decide (normKeyV (ws.cell r stg.reservationColIdx) = k)

/-- Amount read through an optional column: a missing column makes the
cell access raise, the bare `except` leaves the 0 default (source lines
377 to 383). -/
def amtAt (ws : Sheet) (col : Option Nat) (r : Nat) : ℚ :=
  match col with
  | none => 0
  | some c => pyFloat (ws.cell r c)

/-- Keep test of the suppression loop (source lines 366 to 386): the key
keeps its place in `only_com` only when its row is found and both
amounts are non-zero. -/
def bookingKeep (ws : Sheet) (stg : ComSettings) (fcol ccol : Option Nat)
    (k : String) : Bool :=
  match findKeyRow ws stg k with
  | none => false
  | some r => decide (amtAt ws fcol r ≠ 0) && decide (amtAt ws ccol r ≠ 0)

/-- The whole Booking.com block (source lines 355 to 389) applied to the
already-computed `only_com` set. -/
def bookingSuppress (ws : Sheet) (stg : ComSettings) (onlyCom : Finset String) :
    Finset String :=
  let fcol := lastColWith ws stg.headerRow "final" "amount"
  let ccol := lastColWith ws stg.headerRow "commission" "amount"
  onlyCom.filter fun k => bookingKeep ws stg fcol ccol k = true

/-! ### The set part of `process_reconciliation` (source lines 350 to 397) -/

/-- The test `filename.lower().endswith(".pdf")` of source line 277. -/
def isPdfName (f : String) : Bool := trailsWith (lowerL f.data) ".pdf".data

/-- The matched key set the engine leaves implicit: keys present on both
sides (such a key lands in neither difference, so its left row and its
right row stay unhighlighted). -/
def matchedKeys (L R : Finset String) : Finset String := L ∩ R

/-- Source lines 350 to 397 as one function: the two set differences,
then the Booking.com suppression of `only_com` when the OTA filename
holds "booking" and the source is tabular (not a PDF). -/
def procDiff (duP : String → Option PyDate) (otaFname : String)
    (hotKeys : Finset String) (ws : Sheet) (stg : ComSettings) :
    Finset String × Finset String :=
  let comKeys := (collectCommissionExcel duP ws stg).1
  let onlyHot := hotKeys \ comKeys
  let onlyCom := comKeys \ hotKeys
  if hasSub (lowerStr otaFname) "booking" && !isPdfName otaFname then
    (onlyHot, bookingSuppress ws stg onlyCom)
  else
    (onlyHot, onlyCom)

/-! ### Text-layout recovery engine (`parse_expedia_hunter_to_ws`,
source lines 207 to 260)

The hunter regex
`(Expedia Collect|Hotel Collect)\s.*?(\d{8,15})\s.*?(\d{1,2}-[A-Za-z]{3}-\d{4})`
with `IGNORECASE`, scanned by `finditer`, is embedded with the Python
engine's backtracking order: alternatives in written order, a lazy dot
star grows from zero, a greedy counted repetition shrinks from its
maximum, and the leftmost start position wins. -/

/-- The cleaning of source lines 221 to 222: newlines and double quotes
become spaces, commas are deleted, whitespace runs collapse to one
space. -/
def collapseAux : Bool → List Char → List Char
  | _, [] => []
  | prevWS, c :: cs =>
    if pyIsSpace c then
      if prevWS then collapseAux true cs else ' ' :: collapseAux true cs
    else c :: collapseAux false cs

def cleanText (s : List Char) : List Char :=
  let s1 := s.map fun c => if c = '\n' then ' ' else c
  let s2 := s1.map fun c => if c = '"' then ' ' else c
  let s3 := s2.filter (· ≠ ',')
  collapseAux false s3

/-- Case-insensitive literal match (the `IGNORECASE` flag); the pattern
is given lower-case. -/
def matchCI : List Char → List Char → Option (List Char)
  | [], s => some s
  | _ :: _, [] => none
  | p :: ps, c :: cs => if lowChar c = p then matchCI ps cs else none

/-- One whitespace character (`\s`). -/
def matchWS : List Char → Option (List Char)
  | c :: cs => if pyIsSpace c then some cs else none
  | [] => none

/-- Exactly `n` digits from the head, returned with the rest. -/
def digitsN : Nat → List Char → Option (List Char × List Char)
  | 0, s => some ([], s)
  | _ + 1, [] => none
  | n + 1, c :: cs =>
    if c.isDigit then (digitsN n cs).map fun p => (c :: p.1, p.2) else none

/-- Greedy `\d{8,15}` with backtracking: digit counts tried from 15 down
to 8, the first count whose continuation succeeds wins. -/
def tryDigitCounts (ns : List Nat) (t : List Char)
    (k : List Char → List Char → Option α) : Option α :=
  match ns with
  | [] => none
  | n :: rest =>
    match digitsN n t with
    | some (ds, r) => (k ds r).orElse fun _ => tryDigitCounts rest t k
    | none => tryDigitCounts rest t k

/-- Lazy `.*?` before a sub-matcher: try the sub-matcher at the current
position first, then consume one more character (a dot does not cross a
newline) and retry. -/
def lazyFind (f : List Char → Option α) : List Char → Option α
  | [] => f []
  | c :: cs =>
    match f (c :: cs) with
    | some r => some r
    | none => if c = '\n' then none else lazyFind f cs

def alpha3 (s : List Char) : Option (List Char × List Char) :=
  match s with
  | a :: b :: c :: rest =>
    if a.isAlpha ∧ b.isAlpha ∧ c.isAlpha then some ([a, b, c], rest) else none
  | _ => none

def matchDateAfterDay (day s : List Char) : Option (List Char × List Char) :=
  match s with
  | '-' :: r1 =>
    match alpha3 r1 with
    | some (mon, r2) =>
      match r2 with
      | '-' :: r3 =>
        match digitsN 4 r3 with
        | some (yr, r4) => some (day ++ '-' :: (mon ++ '-' :: yr), r4)
        | none => none
      | _ => none
    | none => none
  | _ => none

/-- The date token `\d{1,2}-[A-Za-z]{3}-\d{4}`: the greedy `\d{1,2}`
tries two digits before one. -/
def matchDateTok (s : List Char) : Option (List Char × List Char) :=
  match s with
  | d1 :: d2 :: rest =>
    if d1.isDigit then
      (if d2.isDigit then matchDateAfterDay [d1, d2] rest else none).orElse
        fun _ => matchDateAfterDay [d1] (d2 :: rest)
    else none
  | [d1] => if d1.isDigit then matchDateAfterDay [d1] [] else none
  | [] => none

/-- The part of the hunter pattern after the booking-type literal. -/
def anchorTail (s : List Char) : Option (List Char × List Char × List Char) :=
  match matchWS s with
  | none => none
  | some r1 =>
    lazyFind
      (fun t =>
        tryDigitCounts [15, 14, 13, 12, 11, 10, 9, 8] t fun rid r2 =>
          match matchWS r2 with
          | none => none
          | some r3 =>
            lazyFind (fun u => (matchDateTok u).map fun dr => (rid, dr.1, dr.2)) r3)
      r1

/-- The hunter pattern anchored at one position: booking type, id, date,
returning the matched groups and the text after the match. -/
def matchAnchor (s : List Char) :
    Option (List Char × List Char × List Char × List Char) :=
  match matchCI "expedia collect".data s with
  | some rest => (anchorTail rest).map fun t => (s.take 15, t.1, t.2.1, t.2.2)
  | none =>
    match matchCI "hotel collect".data s with
    | some rest => (anchorTail rest).map fun t => (s.take 13, t.1, t.2.1, t.2.2)
    | none => none

/-- The `re.finditer` loop over the flattened text: leftmost matches, scanning
resumes after each match; the fuel is the text length (every step drops
at least one character). -/
def findAnchors : Nat → List Char →
    List (List Char × List Char × List Char × List Char)
  | 0, _ => []
  | _, [] => []
  | fuel + 1, s@(_ :: cs) =>
    match matchAnchor s with
    | some m => m :: findAnchors fuel m.2.2.2
    | none => findAnchors fuel cs

/-- One decimal token of `re.findall(r'(\d+\.\d{2})', window)`: a
maximal digit run, a dot, exactly two digits taken. -/
def priceAt (s : List Char) : Option (List Char × List Char) :=
  let ds := s.takeWhile Char.isDigit
  let r1 := s.dropWhile Char.isDigit
  if ds.isEmpty then none
  else
    match r1 with
    | '.' :: a :: b :: r2 =>
      if a.isDigit ∧ b.isDigit then some (ds ++ '.' :: [a, b], r2) else none
    | _ => none

/-- The `findall` scan: leftmost non-overlapping decimal tokens. -/
def scanPrices : Nat → List Char → List (List Char)
  | 0, _ => []
  | _, [] => []
  | fuel + 1, s@(_ :: cs) =>
    match priceAt s with
    | some (p, rest) => p :: scanPrices fuel rest
    | none => scanPrices fuel cs

def priceList (window : List Char) : List String :=
  (scanPrices window.length window).map fun p => (⟨p⟩ : String)

/-- The amount policy of source lines 237 to 241: the last price is the
total, the second-to-last (when present) the amount before tax, a single
price serves as both, no price leaves the "0.00" defaults. -/
def priceAmounts (prices : List String) : String × String :=
  match prices.getLast? with
  | none => ("0.00", "0.00")
  | some tot =>
    if 2 ≤ prices.length then ((prices.reverse.getD 1 tot), tot)
    else (tot, tot)

/-- Month number of a three-letter abbreviation, case-insensitive.
Modelled from the external `dateutil` month table. -/
def monAbbrNum (m : List Char) : Option Nat :=
  mon3.findSome? fun am => if am.1.data = m.map lowChar then some am.2 else none

def isLeap (y : Nat) : Bool := (y % 4 = 0 && y % 100 ≠ 0) || y % 400 = 0

def daysInMonth (y m : Nat) : Nat :=
  if m = 2 then (if isLeap y then 29 else 28)
  else if m = 4 ∨ m = 6 ∨ m = 9 ∨ m = 11 then 30
  else 31

/-- Model of the external `dateutil.parser.parse` on the
day-dash-month-dash-year tokens the hunter regex captures: the calendar
is validated, failure (the source's `except`) is `none`. -/
def duParseDMY (cs : List Char) : Option PyDate :=
  let dayCs := cs.takeWhile Char.isDigit
  let rest := cs.dropWhile Char.isDigit
  match rest with
  | '-' :: r1 =>
    let monCs := r1.takeWhile Char.isAlpha
    let r2 := r1.dropWhile Char.isAlpha
    match r2 with
    | '-' :: yrCs =>
      if yrCs.all Char.isDigit ∧ yrCs.length = 4 ∧
          (dayCs.length = 1 ∨ dayCs.length = 2) then
        match monAbbrNum monCs with
        | some m =>
          let d := digitsToNat dayCs
          let y := digitsToNat yrCs
          if 1 ≤ d ∧ d ≤ daysInMonth y m then some ⟨y, m, d⟩ else none
        | none => none
      else none
    | _ => none
  | _ => none

/-- One synthesized row of the hunter output sheet (source line 254),
restricted to the fields the reconciliation inspects. -/
structure HunterRec where
  bt : String
  rid : String
  dt : Option PyDate
  amt : String
  tax : String
  tot : String
deriving DecidableEq

/-- Source function `parse_expedia_hunter_to_ws` on already-extracted text: clean,
scan anchors, and read the amounts from the 150-character window after
each match (source lines 220 to 254). -/
def hunterRecords (fullText : String) : List HunterRec :=
  let cl := cleanText fullText.data
  (findAnchors cl.length cl).map fun m =>
    let window := m.2.2.2.take 150
    let prices := priceList window
    let at2 := priceAmounts prices
    { bt := ⟨m.1⟩, rid := ⟨m.2.1⟩, dt := duParseDMY m.2.2.1,
      amt := at2.1, tax := "0.00", tot := at2.2 }

/-! ### Helper lemmas about characters and normalization -/

lemma charOfNatToNat (n : Nat) (h : n < 55296) : (Char.ofNat n).toNat = n := by
  have hv : n.isValidChar := Or.inl h
  rw [Char.ofNat, dif_pos hv]
  simp [Char.ofNatAux, Char.toNat, UInt32.toNat, BitVec.toNat_ofNatLt]

lemma upChar_toNat (c : Char) (h : 97 ≤ c.toNat ∧ c.toNat ≤ 122) :
    (upChar c).toNat = c.toNat - 32 := by
  unfold upChar
  rw [if_pos h]
  exact charOfNatToNat _ (by omega)

lemma upChar_eq_self (c : Char) (h : ¬(97 ≤ c.toNat ∧ c.toNat ≤ 122)) :
    upChar c = c := if_neg h

lemma upChar_not_lower (c : Char) :
    ¬(97 ≤ (upChar c).toNat ∧ (upChar c).toNat ≤ 122) := by
  by_cases h : 97 ≤ c.toNat ∧ c.toNat ≤ 122
  · rw [upChar_toNat c h]; omega
  · rw [upChar_eq_self c h]; exact h

lemma upChar_idem (c : Char) : upChar (upChar c) = upChar c :=
  upChar_eq_self _ (upChar_not_lower c)

lemma pyIsSpace_toNat (c : Char) (h : pyIsSpace c = true) : c.toNat ≤ 32 := by
  simp only [pyIsSpace, Bool.or_eq_true, decide_eq_true_eq] at h
  rcases h with ((((h | h) | h) | h) | h) | h <;> subst h <;> decide

lemma upChar_ws (c : Char) (h : pyIsSpace (upChar c) = true) : upChar c = c := by
  by_cases hl : 97 ≤ c.toNat ∧ c.toNat ≤ 122
  · exfalso
    have h32 := pyIsSpace_toNat _ h
    rw [upChar_toNat c hl] at h32
    omega
  · exact upChar_eq_self c hl

lemma dropWhile_ws_eq_self (l : List Char)
    (h : ∀ c ∈ l, pyIsSpace c = false) : l.dropWhile pyIsSpace = l := by
  cases l with
  | nil => rfl
  | cons a t => rw [List.dropWhile_cons, h a (List.mem_cons_self a t)]; simp

lemma pyStrip_eq_self (l : List Char)
    (h : ∀ c ∈ l, pyIsSpace c = false) : pyStrip l = l := by
  unfold pyStrip
  rw [dropWhile_ws_eq_self l h,
    dropWhile_ws_eq_self l.reverse (by intro c hc; exact h c (List.mem_reverse.mp hc)),
    List.reverse_reverse]

lemma mem_pyStrip {c : Char} {l : List Char} (h : c ∈ pyStrip l) : c ∈ l := by
  unfold pyStrip at h
  rw [List.mem_reverse] at h
  have h2 := (List.dropWhile_sublist (l := (l.dropWhile pyIsSpace).reverse)
    pyIsSpace).subset h
  rw [List.mem_reverse] at h2
  exact (List.dropWhile_sublist (l := l) pyIsSpace).subset h2

/-- Shape of a member of the normalized key: an upper-cased survivor of
the trimmed input that is no space and no hyphen. -/
lemma mem_normKeyL {c : Char} {s : List Char} (h : c ∈ normKeyL s) :
    (∃ d ∈ pyStrip s, c = upChar d) ∧ c ≠ ' ' ∧ c ≠ '-' := by
  unfold normKeyL at h
  have h1 := List.mem_filter.mp h
  have h2 := List.mem_map.mp h1.1
  have h3 : c ≠ ' ' ∧ c ≠ '-' := by
    have h4 := h1.2
    simp only [Bool.not_eq_true', Bool.or_eq_false_iff, decide_eq_false_iff_not] at h4
    exact h4
  exact ⟨⟨h2.choose, h2.choose_spec.1, h2.choose_spec.2.symm⟩, h3⟩

/-! ### Claim C3: what `norm_key` deletes -/

/-- Claim C3 is false of the code: `norm_key` deletes only spaces and
hyphens (source line 27, not every non-alphanumeric character), so the
dot of "A.B" survives normalization although it is outside `[A-Z0-9]`. -/
theorem C3_counterexample :
    normKey "A.B" = "A.B" ∧ '.' ∈ (normKey "A.B").data ∧
      ¬(('A' ≤ '.' ∧ '.' ≤ 'Z') ∨ ('0' ≤ '.' ∧ '.' ≤ '9')) := by
  refine ⟨by decide, by decide, by decide⟩

/-- Claim C3 amended: `norm_key` coerces to text, trims and
upper-cases, but deletes exactly the spaces and hyphens.  The result
never holds a space, a hyphen or a lower-case ASCII letter, and every
other trimmed character survives upper-cased, so punctuation other than
space and hyphen is kept and the result is not confined to `[A-Z0-9]`. -/
theorem C3_amended :
    normKeyV .vnone = "" ∧
    (∀ s : List Char, ∀ c ∈ normKeyL s,
      c ≠ ' ' ∧ c ≠ '-' ∧ ¬(97 ≤ c.toNat ∧ c.toNat ≤ 122)) ∧
    (∀ s : List Char, ∀ c ∈ pyStrip s,
      upChar c ≠ ' ' → upChar c ≠ '-' → upChar c ∈ normKeyL s) := by
  refine ⟨by decide, ?_, ?_⟩
  · intro s c hc
    obtain ⟨⟨d, _, hcd⟩, hsp, hhy⟩ := mem_normKeyL hc
    subst hcd
    exact ⟨hsp, hhy, upChar_not_lower d⟩
  · intro s c hc h1 h2
    unfold normKeyL
    refine List.mem_filter.mpr ⟨List.mem_map.mpr ⟨c, hc, rfl⟩, ?_⟩
    simp only [Bool.not_eq_true', Bool.or_eq_false_iff, decide_eq_false_iff_not]
    exact ⟨h1, h2⟩

theorem C3_amended_witness :
    '.' ∈ normKeyL " a.b-".data ∧
      ('.' ≠ ' ' ∧ '.' ≠ '-' ∧ ¬(97 ≤ '.'.toNat ∧ '.'.toNat ≤ 122)) ∧
      upChar 'x' ∈ normKeyL " a.b-x".data :=
  ⟨by decide, C3_amended.2.1 " a.b-".data '.' (by decide),
    C3_amended.2.2 " a.b-x".data 'x' (by decide) (by decide) (by decide)⟩

/-! ### Claim C8: idempotence of `norm_key` -/

/-- Claim C8 is false of the code: `norm_key` is not idempotent on the
input hyphen-tab-a.  The first pass deletes the hyphen and bares the
tab at the front, which only the second pass trims away. -/
theorem C8_counterexample :
    normKey (normKey "-\ta") ≠ normKey "-\ta" := by decide

/-- Claim C8 amended: `norm_key` is idempotent on every input whose
whitespace characters are all plain spaces (on other inputs a tab or
newline shielded by a deleted space or hyphen can surface at an end of
the first pass's result and be trimmed only by the second pass). -/
theorem C8_amended (s : List Char)
    (h : ∀ c ∈ s, pyIsSpace c = true → c = ' ') :
    normKeyL (normKeyL s) = normKeyL s := by
  have hmem : ∀ c ∈ normKeyL s, pyIsSpace c = false := by
    intro c hc
    obtain ⟨⟨d, hd, hcd⟩, hsp, _⟩ := mem_normKeyL hc
    by_contra hb
    have hws : pyIsSpace c = true := by revert hb; cases pyIsSpace c <;> simp
    have hfix := upChar_ws d (hcd ▸ hws)
    have hcd2 : c = d := hcd.trans hfix
    have hdsp : d = ' ' := h d (mem_pyStrip hd) (hcd2 ▸ hws)
    exact hsp (hcd2.trans hdsp)
  show ((pyStrip (normKeyL s)).map upChar).filter
      (fun c => !(c = ' ' || c = '-')) = normKeyL s
  rw [pyStrip_eq_self _ hmem]
  have hup : ∀ c ∈ normKeyL s, upChar c = id c := by
    intro c hc
    obtain ⟨⟨d, _, hcd⟩, _, _⟩ := mem_normKeyL hc
    subst hcd
    exact upChar_idem d
  rw [List.map_congr_left hup, List.map_id]
  refine List.filter_eq_self.mpr fun a ha => ?_
  obtain ⟨_, h1, h2⟩ := mem_normKeyL ha
  simp only [Bool.not_eq_true', Bool.or_eq_false_iff, decide_eq_false_iff_not]
  exact ⟨h1, h2⟩

theorem C8_amended_witness :
    (∀ c ∈ (" hm-12 34 " : String).data, pyIsSpace c = true → c = ' ') ∧
      normKeyL (normKeyL " hm-12 34 ".data) = normKeyL " hm-12 34 ".data :=
  ⟨by decide, C8_amended " hm-12 34 ".data (by decide)⟩

/-! ### Helper lemmas about the folds and about `procDiff` -/

lemma comFold_no_empty (duP : String → Option PyDate) (ws : Sheet)
    (stg : ComSettings) (dc : Option Nat) (l : List Nat)
    (acc : Finset String × Option PyDate) (h : "" ∉ acc.1) :
    "" ∉ (l.foldl (comStep duP ws stg dc) acc).1 := by
  induction l generalizing acc with
  | nil => exact h
  | cons r t ih =>
    refine ih _ ?_
    show "" ∉ (comStep duP ws stg dc acc r).1
    unfold comStep
    by_cases hk : normKeyV (ws.cell r stg.reservationColIdx) ≠ ""
    · simp only [if_pos hk]
      intro hmem
      rcases Finset.mem_insert.mp hmem with he | he
      · exact hk he.symm
      · exact h he
    · simp only [if_neg hk]
      exact h

lemma comKeys_no_empty (duP : String → Option PyDate) (ws : Sheet)
    (stg : ComSettings) : "" ∉ (collectCommissionExcel duP ws stg).1 :=
  comFold_no_empty duP ws stg (comDateCol ws stg) _ _ (Finset.not_mem_empty "")

lemma hotFold_no_empty (duP : String → Option PyDate) (ws : Sheet)
    (a d : Option Nat) (rc : Nat) (l : List Nat)
    (acc : (String → List Nat) × (String → Finset String) × Option PyDate)
    (h : ∀ p, "" ∉ acc.2.1 p) :
    ∀ p, "" ∉ (l.foldl (hotStep duP ws a d rc) acc).2.1 p := by
  induction l generalizing acc with
  | nil => exact h
  | cons r t ih =>
    refine ih _ ?_
    intro p
    show "" ∉ (hotStep duP ws a d rc acc r).2.1 p
    unfold hotStep
    by_cases hk : normKeyV (ws.cell r rc) ≠ ""
    · simp only [if_pos hk, updSet]
      by_cases hp : p = (match rowDate duP ws a d r with
        | some dd => monyy dd.year dd.month
        | none => "Unknown")
      · simp only [if_pos hp]
        intro hmem
        rcases Finset.mem_insert.mp hmem with he | he
        · exact hk he.symm
        · exact h p he
      · simp only [if_neg hp]
        exact h p
    · simp only [if_neg hk]
      exact h p

lemma hotKeys_no_empty (duP : String → Option PyDate) (ws : Sheet) :
    ∀ p, "" ∉ (collectHoteliers duP ws).keysByPeriod p := by
  intro p
  exact hotFold_no_empty duP ws _ _ _ _ _ (fun _ => Finset.not_mem_empty "") p

lemma hotOut_no_empty (ws : Sheet) (rc : Nat) (rows : List Nat) :
    "" ∉ hotOutKeys ws rc rows := by
  unfold hotOutKeys
  suffices h : ∀ acc : Finset String, "" ∉ acc →
      "" ∉ rows.foldl (hotOutStep ws rc) acc from
    h ∅ (Finset.not_mem_empty "")
  induction rows with
  | nil => exact fun acc h => h
  | cons r t ih =>
    intro acc h
    refine ih _ ?_
    show "" ∉ hotOutStep ws rc acc r
    unfold hotOutStep
    by_cases hk : normKeyV (ws.cell r rc) ≠ ""
    · simp only [if_pos hk]
      intro hmem
      rcases Finset.mem_insert.mp hmem with he | he
      · exact hk he.symm
      · exact h he
    · simp only [if_neg hk]
      exact h

lemma procDiff_eq (duP : String → Option PyDate) (f : String)
    (hk : Finset String) (ws : Sheet) (stg : ComSettings) :
    procDiff duP f hk ws stg =
      if (hasSub (lowerStr f) "booking" && !isPdfName f) = true
      then (hk \ (collectCommissionExcel duP ws stg).1,
            bookingSuppress ws stg ((collectCommissionExcel duP ws stg).1 \ hk))
      else (hk \ (collectCommissionExcel duP ws stg).1,
            (collectCommissionExcel duP ws stg).1 \ hk) := by
  simp only [procDiff]

lemma bookingSuppress_subset (ws : Sheet) (stg : ComSettings)
    (S : Finset String) : bookingSuppress ws stg S ⊆ S :=
  Finset.filter_subset _ _

/-! ### Claim C2: partition laws of the reconciliation sets -/

/-- Claim C2: with `matched` the intersection the engine leaves
implicit, the two differences of source lines 351 to 352 satisfy the
partition laws (pairwise disjoint, `matched` with `onlyLeft` is the
left key set, `matched` with `onlyRight` the right key set), and the
Booking.com suppression only shrinks `only_com` (it is a filter) while
`procDiff` computes `only_hot` from the unfiltered right key set in
both branches, so no key ever moves between the three sets. -/
theorem C2_partition (L R : Finset String) :
    matchedKeys L R ∩ (L \ R) = ∅ ∧
    matchedKeys L R ∩ (R \ L) = ∅ ∧
    (L \ R) ∩ (R \ L) = ∅ ∧
    matchedKeys L R ∪ (L \ R) = L ∧
    matchedKeys L R ∪ (R \ L) = R ∧
    (∀ ws stg (S : Finset String), bookingSuppress ws stg S ⊆ S) ∧
    (∀ duP f ws stg,
      (procDiff duP f L ws stg).1 = L \ (collectCommissionExcel duP ws stg).1 ∧
      (procDiff duP f L ws stg).2 ⊆ (collectCommissionExcel duP ws stg).1 \ L) := by
  refine ⟨?_, ?_, ?_, ?_, ?_, ?_, ?_⟩
  · ext x; simp only [matchedKeys, Finset.mem_inter, Finset.mem_sdiff,
      Finset.not_mem_empty, iff_false]; tauto
  · ext x; simp only [matchedKeys, Finset.mem_inter, Finset.mem_sdiff,
      Finset.not_mem_empty, iff_false]; tauto
  · ext x; simp only [Finset.mem_inter, Finset.mem_sdiff,
      Finset.not_mem_empty, iff_false]; tauto
  · ext x; simp only [matchedKeys, Finset.mem_union, Finset.mem_inter,
      Finset.mem_sdiff]; tauto
  · ext x; simp only [matchedKeys, Finset.mem_union, Finset.mem_inter,
      Finset.mem_sdiff]; tauto
  · exact fun ws stg S => bookingSuppress_subset ws stg S
  · intro duP f ws stg
    rw [procDiff_eq]
    by_cases hb : (hasSub (lowerStr f) "booking" && !isPdfName f) = true
    · rw [if_pos hb]
      exact ⟨rfl, bookingSuppress_subset _ _ _⟩
    · rw [if_neg hb]
      exact ⟨rfl, Finset.Subset.refl _⟩

/-! ### Claim C1: scope of the Booking.com zero-amount rule -/

/-- The claim's reading of the Booking.com rule, written for comparison
with the code: zero-amount right-side records leave the right key set
before the intersection and both differences are computed, so their
keys are neither matched nor in `onlyRight` (and they do make left-side
keys `onlyLeft`). -/
def specSuppressDiff (duP : String → Option PyDate) (otaFname : String)
    (hotKeys : Finset String) (ws : Sheet) (stg : ComSettings) :
    Finset String × Finset String :=
  let comKeys := (collectCommissionExcel duP ws stg).1
  let fcol := lastColWith ws stg.headerRow "final" "amount"
  let ccol := lastColWith ws stg.headerRow "commission" "amount"
  let comKeys' :=
    if hasSub (lowerStr otaFname) "booking" && !isPdfName otaFname then
      comKeys.filter fun k => bookingKeep ws stg fcol ccol k = true
    else comKeys
  (hotKeys \ comKeys', comKeys' \ hotKeys)

/-- A constantly-failing stand-in for the external fuzzy date parser
(no cell of the concrete sheets below is a parseable date). -/
def duPNone : String → Option PyDate := fun _ => none

/-- A Booking.com commission sheet with one record whose final and
commission amounts are both zero. -/
def bkSheet : Sheet :=
  ⟨[[.vstr "Reservation ID", .vstr "Final amount", .vstr "Commission amount"],
    [.vstr "A", .vnum 0, .vnum 0]]⟩

/-- The same sheet with a second record carrying real amounts. -/
def bkSheet2 : Sheet :=
  ⟨[[.vstr "Reservation ID", .vstr "Final amount", .vstr "Commission amount"],
    [.vstr "A", .vnum 0, .vnum 0],
    [.vstr "B", .vnum 100, .vnum 10]]⟩

/-- Claim C1 is false of the code: the suppression runs after the set
differences and touches only `only_com`.  With left keys `{A}` and one
zero-amount right record `A`, the code treats `A` as matched (`only_hot`
is empty, source lines 351 and 390 to 397), while the claim's reading —
`A` excluded from the right key set before the differences — would
leave `A` in `onlyLeft`. -/
theorem C1_counterexample :
    procDiff duPNone "Booking.xlsx" {"A"} bkSheet
        (detectCommissionSettings bkSheet) = (∅, ∅) ∧
      specSuppressDiff duPNone "Booking.xlsx" {"A"} bkSheet
        (detectCommissionSettings bkSheet) = ({"A"}, ∅) ∧
      ((∅ : Finset String) ≠ {"A"}) := by
  refine ⟨by decide, by decide, by decide⟩

/-- Claim C1 amended: for a right-side filename holding "booking" that
is not a PDF, the zero-amount rule filters `only_com` after the
differences: a key of `onlyRight` survives exactly when its first
matching sheet row is found with a non-zero final amount and a non-zero
commission amount; `only_hot` (and hence the implicit matched set) is
computed from the unfiltered right key set, so a zero-amount key
present on both sides still counts as matched.  For any other brand
name or for a PDF source the sets are left untouched. -/
theorem C1_amended (duP : String → Option PyDate) (f : String)
    (hk : Finset String) (ws : Sheet) (stg : ComSettings) :
    ((hasSub (lowerStr f) "booking" && !isPdfName f) = true →
      procDiff duP f hk ws stg =
        (hk \ (collectCommissionExcel duP ws stg).1,
         bookingSuppress ws stg ((collectCommissionExcel duP ws stg).1 \ hk))) ∧
    ((hasSub (lowerStr f) "booking" && !isPdfName f) = false →
      procDiff duP f hk ws stg =
        (hk \ (collectCommissionExcel duP ws stg).1,
         (collectCommissionExcel duP ws stg).1 \ hk)) ∧
    (∀ k ∈ bookingSuppress ws stg ((collectCommissionExcel duP ws stg).1 \ hk),
      k ∈ (collectCommissionExcel duP ws stg).1 \ hk ∧
      ∃ r, findKeyRow ws stg k = some r ∧
        amtAt ws (lastColWith ws stg.headerRow "final" "amount") r ≠ 0 ∧
        amtAt ws (lastColWith ws stg.headerRow "commission" "amount") r ≠ 0) ∧
    (∀ k r, findKeyRow ws stg k = some r →
      (amtAt ws (lastColWith ws stg.headerRow "final" "amount") r = 0 ∨
       amtAt ws (lastColWith ws stg.headerRow "commission" "amount") r = 0) →
      k ∉ bookingSuppress ws stg ((collectCommissionExcel duP ws stg).1 \ hk)) := by
  refine ⟨?_, ?_, ?_, ?_⟩
  · intro hb
    rw [procDiff_eq, if_pos hb]
  · intro hb
    rw [procDiff_eq, if_neg (by simp [hb])]
  · intro k hkmem
    have h1 := Finset.mem_filter.mp hkmem
    refine ⟨h1.1, ?_⟩
    have h2 := h1.2
    unfold bookingKeep at h2
    rcases hrow : findKeyRow ws stg k with _ | r
    · rw [hrow] at h2; exact absurd h2 (by simp)
    · rw [hrow] at h2
      simp only [Bool.and_eq_true, decide_eq_true_eq] at h2
      exact ⟨r, rfl, h2.1, h2.2⟩
  · intro k r hrow hzero hkmem
    have h1 := Finset.mem_filter.mp hkmem
    have h2 := h1.2
    unfold bookingKeep at h2
    rw [hrow] at h2
    simp only [Bool.and_eq_true, decide_eq_true_eq] at h2
    rcases hzero with hz | hz
    · exact h2.1 hz
    · exact h2.2 hz

theorem C1_amended_witness :
    procDiff duPNone "Booking.xlsx" {"A"} bkSheet2
        (detectCommissionSettings bkSheet2) =
      ({"A"} \ (collectCommissionExcel duPNone bkSheet2
          (detectCommissionSettings bkSheet2)).1,
       bookingSuppress bkSheet2 (detectCommissionSettings bkSheet2)
         ((collectCommissionExcel duPNone bkSheet2
            (detectCommissionSettings bkSheet2)).1 \ {"A"})) :=
  (C1_amended duPNone "Booking.xlsx" {"A"} bkSheet2
    (detectCommissionSettings bkSheet2)).1 (by decide)

/-! ### Claim C7: empty keys never reach any set -/

/-- The highlight decision on a copied Hoteliers row (source lines 401
to 404): the row is filled red exactly when its normalized key lies in
`only_hot`. -/
def hotRowHighlighted (ws : Sheet) (rc : Nat) (onlyHot : Finset String)
    (r : Nat) : Prop :=
  normKeyV (ws.cell r rc) ∈ onlyHot

/-- The highlight decision on an OTA row (source lines 409 to 414). -/
def comRowHighlighted (ws : Sheet) (stg : ComSettings)
    (onlyCom : Finset String) (r : Nat) : Prop :=
  normKeyV (ws.cell r stg.reservationColIdx) ∈ onlyCom

lemma dropWhile_all_ws (l : List Char) (h : ∀ c ∈ l, pyIsSpace c = true) :
    l.dropWhile pyIsSpace = [] := by
  induction l with
  | nil => rfl
  | cons a t ih =>
    rw [List.dropWhile_cons, h a (List.mem_cons_self a t)]
    exact ih fun c hc => h c (List.mem_cons_of_mem a hc)

lemma normKeyL_all_ws (s : List Char) (h : ∀ c ∈ s, pyIsSpace c = true) :
    normKeyL s = [] := by
  unfold normKeyL pyStrip
  rw [dropWhile_all_ws s h]
  rfl

/-- Claim C7: an absent reservation id and a whitespace-only one both
normalize to the empty key; the empty key is never inserted into the
period key sets, the commission key set or the copied-row key set
(every insertion sits behind an `if k:` guard), hence it is in neither
difference of `procDiff`, and a row whose key is empty is never
highlighted on either sheet. -/
theorem C7_empty_keys :
    (normKeyV .vnone = "") ∧
    (∀ s : List Char, (∀ c ∈ s, pyIsSpace c = true) → normKeyL s = []) ∧
    (∀ duP ws p, "" ∉ (collectHoteliers duP ws).keysByPeriod p) ∧
    (∀ duP ws stg, "" ∉ (collectCommissionExcel duP ws stg).1) ∧
    (∀ ws rc rows, "" ∉ hotOutKeys ws rc rows) ∧
    (∀ duP f ws stg (hk : Finset String), "" ∉ hk →
      "" ∉ (procDiff duP f hk ws stg).1 ∧ "" ∉ (procDiff duP f hk ws stg).2) ∧
    (∀ duP f ws stg (hk : Finset String) (hout : Sheet) rc r, "" ∉ hk →
      normKeyV (hout.cell r rc) = "" →
      ¬ hotRowHighlighted hout rc (procDiff duP f hk ws stg).1 r) ∧
    (∀ duP f ws stg (hk : Finset String) r, "" ∉ hk →
      normKeyV (ws.cell r stg.reservationColIdx) = "" →
      ¬ comRowHighlighted ws stg (procDiff duP f hk ws stg).2 r) := by
  have hmain : ∀ duP f ws stg (hk : Finset String), "" ∉ hk →
      "" ∉ (procDiff duP f hk ws stg).1 ∧ "" ∉ (procDiff duP f hk ws stg).2 := by
    intro duP f ws stg hk hhk
    rw [procDiff_eq]
    by_cases hb : (hasSub (lowerStr f) "booking" && !isPdfName f) = true
    · rw [if_pos hb]
      constructor
      · intro hmem
        exact hhk (Finset.mem_sdiff.mp hmem).1
      · intro hmem
        have h1 := bookingSuppress_subset ws stg _ hmem
        exact comKeys_no_empty duP ws stg (Finset.mem_sdiff.mp h1).1
    · rw [if_neg hb]
      constructor
      · intro hmem
        exact hhk (Finset.mem_sdiff.mp hmem).1
      · intro hmem
        exact comKeys_no_empty duP ws stg (Finset.mem_sdiff.mp hmem).1
  refine ⟨by decide, normKeyL_all_ws, hotKeys_no_empty, comKeys_no_empty,
    hotOut_no_empty, hmain, ?_, ?_⟩
  · intro duP f ws stg hk hout rc r hhk hkey hmem
    unfold hotRowHighlighted at hmem
    rw [hkey] at hmem
    exact (hmain duP f ws stg hk hhk).1 hmem
  · intro duP f ws stg hk r hhk hkey hmem
    unfold comRowHighlighted at hmem
    rw [hkey] at hmem
    exact (hmain duP f ws stg hk hhk).2 hmem

theorem C7_empty_keys_witness :
    normKeyL " \t  ".data = [] ∧
      "" ∉ (procDiff duPNone "Booking.xlsx" {"A"} bkSheet
        (detectCommissionSettings bkSheet)).1 ∧
      "" ∉ (procDiff duPNone "Booking.xlsx" {"A"} bkSheet
        (detectCommissionSettings bkSheet)).2 :=
  ⟨C7_empty_keys.2.1 " \t  ".data (by decide),
    C7_empty_keys.2.2.2.2.2.1 duPNone "Booking.xlsx" bkSheet
      (detectCommissionSettings bkSheet) {"A"} (by decide)⟩

/-! ### Claim C9: row-range discovery in the tabular extractor -/

/-- Characterization of the upward scan: when it lands at 2 or above it
lands on a non-empty row at or below `n` with only empty rows strictly
below it (up to `n`); when it bottoms out at 1 every row from 2 to `n`
is empty (row 1 itself is never examined). -/
lemma lastNonemptyFrom_spec (ws : Sheet) (n : Nat) :
    (2 ≤ lastNonemptyFrom ws n →
      lastNonemptyFrom ws n ≤ n ∧
      rowNonempty ws (lastNonemptyFrom ws n) = true ∧
      ∀ j, lastNonemptyFrom ws n < j → j ≤ n → rowNonempty ws j = false) ∧
    (lastNonemptyFrom ws n ≤ 1 →
      ∀ j, 2 ≤ j → j ≤ n → rowNonempty ws j = false) := by
  induction n using Nat.strong_induction_on with
  | _ n ih =>
    match n with
    | 0 =>
      refine ⟨fun h => absurd h (by simp [lastNonemptyFrom]), ?_⟩
      intro _ j h2 h0
      omega
    | 1 =>
      refine ⟨fun h => absurd h (by simp [lastNonemptyFrom]), ?_⟩
      intro _ j h2 h1
      omega
    | (m + 2) =>
      have hih := ih (m + 1) (by omega)
      have hstep : lastNonemptyFrom ws (m + 2) =
          (if rowNonempty ws (m + 2) = true then m + 2
           else lastNonemptyFrom ws (m + 1)) := rfl
      by_cases hne : rowNonempty ws (m + 2) = true
      · have heq : lastNonemptyFrom ws (m + 2) = m + 2 := by
          rw [hstep, if_pos hne]
        constructor
        · intro _
          rw [heq]
          exact ⟨by omega, hne, fun j hj1 hj2 => False.elim (by omega)⟩
        · intro hle
          rw [heq] at hle
          omega
      · have heq : lastNonemptyFrom ws (m + 2) = lastNonemptyFrom ws (m + 1) := by
          rw [hstep, if_neg hne]
        have hnef : rowNonempty ws (m + 2) = false := by
          revert hne
          cases rowNonempty ws (m + 2) <;> simp
        constructor
        · intro h2
          rw [heq] at h2 ⊢
          obtain ⟨hle, hrow, hrest⟩ := hih.1 h2
          refine ⟨by omega, hrow, ?_⟩
          intro j hj1 hj2
          rcases Nat.lt_or_ge j (m + 2) with hj | hj
          · exact hrest j hj1 (by omega)
          · have : j = m + 2 := by omega
            rw [this]
            exact hnef
        · intro hle
          rw [heq] at hle
          intro j hj1 hj2
          rcases Nat.lt_or_ge j (m + 2) with hj | hj
          · exact hih.2 hle j hj1 (by omega)
          · have : j = m + 2 := by omega
            rw [this]
            exact hnef

/-- Claim C9: the tabular extractor fixes the header at row 2 and the
first data row at 3; the last data row is one below the first non-empty
row found scanning upward from the nominal last row (the back-off that
drops the trailing summary row), and the clamp `max 2 (... - 1)` makes
the data range empty when nothing below the header is non-empty. -/
theorem C9_row_range (ws : Sheet) :
    (hotHeaderRow = 2 ∧ hotDataStart = hotHeaderRow + 1) ∧
    (3 ≤ lastNonempty ws → hotDataEnd ws = lastNonempty ws - 1) ∧
    (2 ≤ lastNonempty ws →
      (lastNonempty ws ≤ ws.maxRow ∧ rowNonempty ws (lastNonempty ws) = true) ∧
      ∀ j, lastNonempty ws < j → j ≤ ws.maxRow → rowNonempty ws j = false) ∧
    (lastNonempty ws ≤ 1 →
      ∀ j, 2 ≤ j → j ≤ ws.maxRow → rowNonempty ws j = false) ∧
    ((∀ j, 3 ≤ j → j ≤ ws.maxRow → rowNonempty ws j = false) →
      hotDataEnd ws < hotDataStart) := by
  have hspec := lastNonemptyFrom_spec ws ws.maxRow
  rw [show lastNonemptyFrom ws ws.maxRow = lastNonempty ws from rfl] at hspec
  refine ⟨⟨rfl, rfl⟩, ?_, ?_, ?_, ?_⟩
  · intro h3
    unfold hotDataEnd
    exact Nat.max_eq_right (by omega)
  · intro h2
    obtain ⟨hle, hrow, hrest⟩ := hspec.1 h2
    exact ⟨⟨hle, hrow⟩, hrest⟩
  · exact hspec.2
  · intro hall
    have hln : lastNonempty ws ≤ 2 := by
      by_contra hgt
      have h3 : 3 ≤ lastNonempty ws := by omega
      obtain ⟨hle, hrow, _⟩ := hspec.1 (by omega)
      have hfalse := hall (lastNonempty ws) h3 hle
      rw [hrow] at hfalse
      exact absurd hfalse (by simp)
    show max 2 (lastNonempty ws - 1) < 3
    omega

/-- A concrete Hoteliers-shaped sheet: header in row 2, data in rows 3
and 4, a trailing totals row in 5, an empty row 6. -/
def hotSheet : Sheet :=
  ⟨[[.vstr "Title"],
    [.vstr "Reservation number", .vstr "Departure"],
    [.vstr "A1", .vstr "x"],
    [.vstr "B2", .vstr "y"],
    [.vstr "Total", .vnone],
    []]⟩

theorem C9_row_range_witness :
    hotDataEnd hotSheet = lastNonempty hotSheet - 1 ∧
      rowNonempty hotSheet 6 = false :=
  ⟨(C9_row_range hotSheet).2.1 (by decide),
    ((C9_row_range hotSheet).2.2.1 (by decide)).2 6 (by decide) (by decide)⟩

/-! ### Claim C6: channel-filter fallback -/

/-- Claim C6: with an OTA column present and a channel filter derived
from the right-side filename that is not the generic sentinel, a filter
that matches no period row while the period had rows makes the engine
fall back to the whole unfiltered row set (source lines 329 to 331); a
non-empty filter result is used as is; and a non-empty period row set
never produces an empty included set, so the fallback path returns an
ordinary value (the run carries on, it does not fail). -/
theorem C6_filter_fallback (ws : Sheet) (oc : Nat) (f : String)
    (rows : List Nat) :
    (inferOta f ≠ "OTA" →
      (rows.filter fun r => otaRowMatch (inferOta f) (ws.cell r oc)) = [] →
      rows ≠ [] →
      includedRows ws (some oc) (inferOta f) rows = rows) ∧
    (∀ target : String,
      (rows.filter fun r => otaRowMatch target (ws.cell r oc)) ≠ [] →
      includedRows ws (some oc) target rows =
        rows.filter fun r => otaRowMatch target (ws.cell r oc)) ∧
    (∀ (ocOpt : Option Nat) (target : String), rows ≠ [] →
      includedRows ws ocOpt target rows ≠ []) := by
  have hinc : ∀ (oc' : Nat) (target : String),
      includedRows ws (some oc') target rows =
        (if (rows.filter fun r => otaRowMatch target (ws.cell r oc')).isEmpty
            && !rows.isEmpty
         then rows
         else rows.filter fun r => otaRowMatch target (ws.cell r oc')) := by
    intro oc' target
    simp only [includedRows]
  refine ⟨?_, ?_, ?_⟩
  · intro _ hfe hrne
    rw [hinc, hfe]
    cases rows with
    | nil => exact absurd rfl hrne
    | cons a t => rfl
  · intro target hfne
    rw [hinc]
    have h1 : (rows.filter fun r => otaRowMatch target (ws.cell r oc)).isEmpty = false := by
      rcases hq : rows.filter fun r => otaRowMatch target (ws.cell r oc) with _ | _
      · exact absurd hq hfne
      · rfl
    rw [h1]
    rfl
  · intro ocOpt target hrne
    cases ocOpt with
    | none => exact hrne
    | some oc' =>
      rw [hinc]
      rcases hq : rows.filter fun r => otaRowMatch target (ws.cell r oc') with _ | ⟨a, t⟩
      · cases rows with
        | nil => exact absurd rfl hrne
        | cons b u => simp
      · rcases rows with _ | ⟨b, u⟩
        · exact absurd rfl hrne
        · simp

/-- A Hoteliers sheet whose channel column holds only a brand that does
not match the Expedia filter. -/
def chSheet : Sheet :=
  ⟨[[],
    [.vstr "Reservation number", .vstr "Channel"],
    [.vstr "A", .vstr "Agoda"]]⟩

theorem C6_filter_fallback_witness :
    includedRows chSheet (some 2) (inferOta "Expedia Dec.xlsx") [3] = [3] :=
  (C6_filter_fallback chSheet 2 "Expedia Dec.xlsx" [3]).1
    (by decide) (by decide) (by decide)

/-! ### Claim C10: Booking.com branch without amount columns -/

lemma mem_rng {c a b : Nat} (h : c ∈ rng a b) : a ≤ c ∧ c ≤ b := by
  unfold rng at h
  obtain ⟨i, hi, hc⟩ := List.mem_range'.mp h
  omega

lemma lastColWith_none (ws : Sheet) (hdr : Nat) (a b : String)
    (h : ∀ c, 1 ≤ c → c ≤ ws.maxCol →
      ¬(hasSub (orEmptyLower (ws.cell hdr c)) a = true ∧
        hasSub (orEmptyLower (ws.cell hdr c)) b = true)) :
    lastColWith ws hdr a b = none := by
  unfold lastColWith
  have hmem : ∀ c ∈ rng 1 ws.maxCol,
      (hasSub (orEmptyLower (ws.cell hdr c)) a &&
        hasSub (orEmptyLower (ws.cell hdr c)) b) = false := by
    intro c hc
    have hb := mem_rng hc
    have := h c hb.1 hb.2
    revert this
    cases hasSub (orEmptyLower (ws.cell hdr c)) a <;>
      cases hasSub (orEmptyLower (ws.cell hdr c)) b <;> simp
  generalize rng 1 ws.maxCol = l at hmem ⊢
  induction l with
  | nil => rfl
  | cons c t ih =>
    have hc := hmem c (List.mem_cons_self c t)
    show List.foldl _ (if (hasSub (orEmptyLower (ws.cell hdr c)) a &&
        hasSub (orEmptyLower (ws.cell hdr c)) b) = true then some c else none) t = none
    rw [hc]
    exact ih fun d hd => hmem d (List.mem_cons_of_mem c hd)

lemma bookingKeep_false_left (ws : Sheet) (stg : ComSettings)
    (ccol : Option Nat) (k : String) :
    bookingKeep ws stg none ccol k = false := by
  unfold bookingKeep
  rcases findKeyRow ws stg k with _ | r
  · rfl
  · show (decide (amtAt ws none r ≠ 0) && _) = false
    have h0 : amtAt ws none r = 0 := rfl
    rw [h0]
    simp

lemma bookingKeep_false_right (ws : Sheet) (stg : ComSettings)
    (fcol : Option Nat) (k : String) :
    bookingKeep ws stg fcol none k = false := by
  unfold bookingKeep
  rcases findKeyRow ws stg k with _ | r
  · rfl
  · show (_ && decide (amtAt ws none r ≠ 0)) = false
    have h0 : amtAt ws none r = 0 := rfl
    rw [h0]
    simp

/-- Claim C10: when the Booking.com branch runs on a sheet whose header
row has no cell holding both "final" and "amount" (or none holding both
"commission" and "amount"), the column lookup yields no column, every
amount read defaults to 0 through the swallowed exception, no key
passes the keep test, and the suppressed `only_com` — the "Commission
only" side of the discrepancy sheet — is empty whatever the sheet's
actual amounts. -/
theorem C10_missing_amount_columns (duP : String → Option PyDate)
    (f : String) (hk : Finset String) (ws : Sheet) (stg : ComSettings)
    (hb : (hasSub (lowerStr f) "booking" && !isPdfName f) = true)
    (hcol :
      (∀ c, 1 ≤ c → c ≤ ws.maxCol →
        ¬(hasSub (orEmptyLower (ws.cell stg.headerRow c)) "final" = true ∧
          hasSub (orEmptyLower (ws.cell stg.headerRow c)) "amount" = true)) ∨
      (∀ c, 1 ≤ c → c ≤ ws.maxCol →
        ¬(hasSub (orEmptyLower (ws.cell stg.headerRow c)) "commission" = true ∧
          hasSub (orEmptyLower (ws.cell stg.headerRow c)) "amount" = true))) :
    (∀ r, amtAt ws (none : Option Nat) r = 0) ∧
    bookingSuppress ws stg ((collectCommissionExcel duP ws stg).1 \ hk) = ∅ ∧
    (procDiff duP f hk ws stg).2 = ∅ := by
  have hsup : ∀ S : Finset String, bookingSuppress ws stg S = ∅ := by
    intro S
    rcases hcol with hc | hc
    · have hf := lastColWith_none ws stg.headerRow "final" "amount" hc
      unfold bookingSuppress
      rw [hf]
      refine Finset.filter_eq_empty_iff.mpr ?_
      intro k _
      rw [bookingKeep_false_left]
      simp
    · have hf := lastColWith_none ws stg.headerRow "commission" "amount" hc
      unfold bookingSuppress
      rw [hf]
      refine Finset.filter_eq_empty_iff.mpr ?_
      intro k _
      rw [bookingKeep_false_right]
      simp
  refine ⟨fun r => rfl, hsup _, ?_⟩
  rw [procDiff_eq, if_pos hb]
  exact hsup _

/-- A Booking.com sheet with a real non-zero record but no recognizable
amount columns in its header row. -/
def noAmtSheet : Sheet :=
  ⟨[[.vstr "Reservation ID", .vstr "Stuff"],
    [.vstr "A", .vnum 5]]⟩

theorem C10_missing_amount_columns_witness :
    (procDiff duPNone "booking.xlsx" ∅ noAmtSheet
      (detectCommissionSettings noAmtSheet)).2 = ∅ :=
  (C10_missing_amount_columns duPNone "booking.xlsx" ∅ noAmtSheet
    (detectCommissionSettings noAmtSheet) (by decide)
    (Or.inl (by decide))).2.2

/-! ### Claim C5: the period fallback chain -/

/-- Shape-chasing helpers: every successful period pattern produces a
`monyy` label. -/
lemma orElse_some {α : Type} {a : Option α} {f : Unit → Option α} {r : α}
    (h : a.orElse f = some r) : a = some r ∨ (a = none ∧ f () = some r) := by
  cases a with
  | none => exact Or.inr ⟨rfl, h⟩
  | some x => exact Or.inl h

lemma searchAt_some {α : Type} (f : Option Char → List Char → Option α)
    (P : α → Prop) (hf : ∀ prev s r, f prev s = some r → P r) :
    ∀ prev s r, searchAt f prev s = some r → P r := by
  intro prev s
  induction s generalizing prev with
  | nil => exact fun r h => hf _ _ _ h
  | cons c cs ih =>
    intro r h
    unfold searchAt at h
    rcases orElse_some h with h1 | ⟨_, h2⟩
    · exact hf _ _ _ h1
    · exact ih _ _ h2

lemma tryKs_some {α : Type} (P : α → Prop) (cont : List Char → Option α)
    (hc : ∀ t r, cont t = some r → P r) :
    ∀ (ks : List Nat) (s : List Char) (r : α), tryKs ks s cont = some r → P r := by
  intro ks
  induction ks with
  | nil => intro s r h; exact absurd h (by simp [tryKs])
  | cons k kt ih =>
    intro s r h
    unfold tryKs at h
    rcases hd : dropNonDigitsN k s with _ | rest
    · rw [hd] at h
      exact ih _ _ h
    · rw [hd] at h
      rcases orElse_some h with h1 | ⟨_, h2⟩
      · exact hc _ _ h1
      · exact ih _ _ h2

lemma p1At_shape (prev : Option Char) (s : List Char) (r : String)
    (h : p1At prev s = some r) : ∃ y m, r = monyy y m := by
  unfold p1At at h
  split at h
  · obtain ⟨am, _, hf⟩ := List.exists_of_findSome?_eq_some h
    split at hf
    · exact absurd hf (by simp)
    · split at hf
      · split at hf
        · exact ⟨_, _, (Option.some.inj hf).symm⟩
        · exact absurd hf (by simp)
      · exact absurd hf (by simp)
  · exact absurd h (by simp)

lemma p2At_shape (prev : Option Char) (s : List Char) (r : String)
    (h : p2At prev s = some r) : ∃ y m, r = monyy y m := by
  unfold p2At at h
  split at h
  · obtain ⟨am, _, hf⟩ := List.exists_of_findSome?_eq_some h
    split at hf
    · exact absurd hf (by simp)
    · refine tryKs_some (fun r => ∃ y m, r = monyy y m) _ ?_ _ _ _ hf
      intro t r' hr
      split at hr
      · split at hr
        · exact ⟨_, _, (Option.some.inj hr).symm⟩
        · exact absurd hr (by simp)
      · exact absurd hr (by simp)
  · exact absurd h (by simp)

lemma p3At_shape (prev : Option Char) (s : List Char) (r : String)
    (h : p3At prev s = some r) : ∃ y m, r = monyy y m := by
  unfold p3At at h
  split at h
  · split at h
    · split at h
      · split at h
        · split at h
          · split at h
            · exact ⟨_, _, (Option.some.inj h).symm⟩
            · exact absurd h (by simp)
          · exact absurd h (by simp)
        · exact absurd h (by simp)
      · exact absurd h (by simp)
    · exact absurd h (by simp)
  · exact absurd h (by simp)

lemma p4At_shape (prev : Option Char) (s : List Char) (r : String)
    (h : p4At prev s = some r) : ∃ y m, r = monyy y m := by
  unfold p4At at h
  split at h
  · split at h
    · split at h
      · split at h
        · split at h
          · split at h
            · exact ⟨_, _, (Option.some.inj h).symm⟩
            · exact absurd h (by simp)
          · exact absurd h (by simp)
        · exact absurd h (by simp)
      · exact absurd h (by simp)
    · exact absurd h (by simp)
  · exact absurd h (by simp)

lemma extract_shape (name : String) (r : String)
    (h : extractPeriodFromName name = some r) : ∃ y m, r = monyy y m := by
  unfold extractPeriodFromName at h
  split at h
  · exact absurd h (by simp)
  · rcases orElse_some h with h1 | ⟨_, h2⟩
    · exact searchAt_some p1At _ p1At_shape _ _ _ h1
    · rcases orElse_some h2 with h3 | ⟨_, h4⟩
      · exact searchAt_some p2At _ p2At_shape _ _ _ h3
      · rcases orElse_some h4 with h5 | ⟨_, h6⟩
        · exact searchAt_some p3At _ p3At_shape _ _ _ h5
        · exact searchAt_some p4At _ p4At_shape _ _ _ h6

lemma monyy_ne_empty (y m : Nat) : monyy y m ≠ "" := by
  intro h
  have h0 := congrArg String.length h
  rw [monyy, String.length_append, String.length_append] at h0
  have h1 : ("'" : String).length = 1 := rfl
  have h2 : ("" : String).length = 0 := rfl
  rw [h1, h2] at h0
  omega

lemma fmtMonYY_ne_empty (d : PyDate) : fmtMonYY d ≠ "" := by
  intro h
  have h0 := congrArg String.length h
  rw [fmtMonYY, String.length_append, String.length_append] at h0
  have h1 : ("'" : String).length = 1 := rfl
  have h2 : ("" : String).length = 0 := rfl
  rw [h1, h2] at h0
  omega

/-- The claim's reading of the date tier, for comparison with the code:
the earliest booking date seen in either source, the minimum of the two
per-source earliest dates. -/
def minOptDate : Option PyDate → Option PyDate → Option PyDate
  | some a, some b => if pyDateLt a b then some a else some b
  | some a, none => some a
  | none, b => b

def choosePeriodSpec (hotName comName : String)
    (hotEarliest comEarliest : Option PyDate) : String :=
  match (extractPeriodFromName comName).orElse
      (fun _ => extractPeriodFromName hotName) with
  | some p => p
  | none => ((minOptDate hotEarliest comEarliest).map fmtMonYY).getD "Period"

/-- Claim C5 is false of the code in its second tier: `choose_period`
formats `com_earliest` whenever the right side has any date at all
(source line 86), even when the left side saw an earlier one, so with
left earliest 2025-11-01 and right earliest 2025-12-03 the code returns
the label of December, not of the earliest date seen in either source. -/
theorem C5_counterexample :
    choosePeriod "h" "c" (some ⟨2025, 11, 1⟩) (some ⟨2025, 12, 3⟩) = "Dec'25" ∧
      choosePeriodSpec "h" "c" (some ⟨2025, 11, 1⟩) (some ⟨2025, 12, 3⟩) = "Nov'25" ∧
      ("Dec'25" : String) ≠ "Nov'25" := by
  refine ⟨by decide, by decide, by decide⟩

/-- Claim C5 amended: `choose_period` resolves the period by a
three-tier fallback that never raises: first a filename pattern — the
right-side name, then the left-side name, each through the four
patterns of `extract_period_from_name` in source order — then the
right-side source's earliest date, then the left-side source's earliest
date, and finally the literal "Period"; the result is always a
non-empty label, and the example with no recognizable filename token
and right-side earliest 2025-12-03 yields the label of December 2025. -/
theorem C5_amended :
    (∀ h c he ce p, extractPeriodFromName c = some p →
      choosePeriod h c he ce = p) ∧
    (∀ h c he ce p, extractPeriodFromName c = none →
      extractPeriodFromName h = some p → choosePeriod h c he ce = p) ∧
    (∀ h c he d, extractPeriodFromName c = none →
      extractPeriodFromName h = none →
      choosePeriod h c he (some d) = fmtMonYY d) ∧
    (∀ h c d, extractPeriodFromName c = none →
      extractPeriodFromName h = none →
      choosePeriod h c (some d) none = fmtMonYY d) ∧
    (∀ h c, extractPeriodFromName c = none → extractPeriodFromName h = none →
      choosePeriod h c none none = "Period") ∧
    (∀ h c he ce, choosePeriod h c he ce ≠ "") ∧
    (∀ he, choosePeriod "hotel" "commission" he (some ⟨2025, 12, 3⟩) = "Dec'25") := by
  refine ⟨?_, ?_, ?_, ?_, ?_, ?_, ?_⟩
  · intro h c he ce p hp
    unfold choosePeriod
    rw [hp]
    rfl
  · intro h c he ce p hc hh
    unfold choosePeriod
    rw [hc, hh]
    rfl
  · intro h c he d hc hh
    unfold choosePeriod
    rw [hc, hh]
    rfl
  · intro h c d hc hh
    unfold choosePeriod
    rw [hc, hh]
    rfl
  · intro h c hc hh
    unfold choosePeriod
    rw [hc, hh]
    rfl
  · intro h c he ce
    unfold choosePeriod
    rcases hoe : (extractPeriodFromName c).orElse
        (fun _ => extractPeriodFromName h) with _ | p
    · rcases ce with _ | dc
      · rcases he with _ | dh
        · simp
        · simpa using fmtMonYY_ne_empty dh
      · simpa using fmtMonYY_ne_empty dc
    · have hp : ∃ y m, p = monyy y m := by
        rcases orElse_some hoe with h1 | ⟨_, h2⟩
        · exact extract_shape c p h1
        · exact extract_shape h p h2
      obtain ⟨y, m, hm⟩ := hp
      simpa [hm] using monyy_ne_empty y m
  · intro he
    have hc : extractPeriodFromName "commission" = none := by decide
    have hh : extractPeriodFromName "hotel" = none := by decide
    unfold choosePeriod
    rw [hc, hh]
    rfl

theorem C5_amended_witness :
    choosePeriod "KT hotel list.xlsx" "commission rep.xlsx" none
        (some ⟨2025, 12, 3⟩) = fmtMonYY ⟨2025, 12, 3⟩ ∧
      fmtMonYY ⟨2025, 12, 3⟩ = "Dec'25" :=
  ⟨C5_amended.2.2.1 "KT hotel list.xlsx" "commission rep.xlsx" none
      ⟨2025, 12, 3⟩ (by decide) (by decide), by decide⟩

/-! ### Claim C4: hunter amount policy and the literal anchor case -/

lemma priceAmounts_concat (l : List String) (p q : String) :
    priceAmounts (l ++ [p, q]) = (p, q) := by
  unfold priceAmounts
  have hlast : (l ++ [p, q]).getLast? = some q := by
    rw [show l ++ [p, q] = (l ++ [p]) ++ [q] by simp]
    exact List.getLast?_concat _
  rw [hlast]
  have hlen : 2 ≤ (l ++ [p, q]).length := by
    simp
  show (if 2 ≤ (l ++ [p, q]).length
    then ((l ++ [p, q]).reverse.getD 1 q, q) else (q, q)) = (p, q)
  rw [if_pos hlen]
  have hrev : (l ++ [p, q]).reverse = q :: p :: l.reverse := by
    simp
  rw [hrev]
  rfl

/-- Claim C4: the amounts of an anchor match come from the decimal
tokens of the bounded window after the date anchor: with none found
both default to "0.00", a single token serves as both amounts, and with
two or more the second-to-last is the pre-tax amount and the last the
total.  The literal flattened text of the spec yields exactly one
record with id 123456789012, date 2025-12-25, pre-tax 1200.00 and total
1100.00 — the pre-tax amount exceeding the total is reproduced, not
corrected. -/
theorem C4_hunter_amounts :
    (∀ w : List Char, priceList w = [] →
      priceAmounts (priceList w) = ("0.00", "0.00")) ∧
    (∀ (w : List Char) (p : String), priceList w = [p] →
      priceAmounts (priceList w) = (p, p)) ∧
    (∀ (w : List Char) (l : List String) (p q : String),
      priceList w = l ++ [p, q] → priceAmounts (priceList w) = (p, q)) ∧
    (hunterRecords
        "Expedia Collect 123456789012 blah 25-Dec-2025 blah 1200.00 1100.00" =
      [{ bt := "Expedia Collect", rid := "123456789012",
         dt := some ⟨2025, 12, 25⟩, amt := "1200.00", tax := "0.00",
         tot := "1100.00" }]) := by
  refine ⟨?_, ?_, ?_, by decide⟩
  · intro w hw
    rw [hw]
    rfl
  · intro w p hw
    rw [hw]
    rfl
  · intro w l p q hw
    rw [hw]
    exact priceAmounts_concat l p q

theorem C4_hunter_amounts_witness :
    priceList " 1.00 2.00 3.00".data = ["1.00"] ++ ["2.00", "3.00"] ∧
      priceAmounts (priceList " 1.00 2.00 3.00".data) = ("2.00", "3.00") :=
  ⟨by decide, C4_hunter_amounts.2.2.1 " 1.00 2.00 3.00".data ["1.00"]
    "2.00" "3.00" (by decide)⟩

end Reconcile
